import Mathlib

/-
Shallow embedding of the sound-asset management core of GrowBonsai-TUI.

Source files embedded here:
  src/src/focusseeds/sound_settings.py   (return_sounds_list, remove_id_suffix,
                                          rename_file, SoundSettings, EditSound)
  src/src/focuskeeper/widgets/sound_settings.py (SoundSettings incl. listen_to_sound)
  src/src/focuskeeper/modals/add_sound_tree.py  (AddSoundTree.file_selected)

Encoding conventions:
  - A file name is modelled as a pair of a stem and an extension (the extension
    carries the leading dot), with the full name being the concatenation.  The
    Python code derives these parts with Path.suffix and str.split on the dot;
    the two coincide because stems produced by the app are dot-free (the rename
    input is restricted to the character class a-zA-Z0-9_- and imported names
    are soundified the same way).
  - A directory is the list of its file names in scan (glob) order.
  - The four application directories are modelled symbolically; the config
    stores the directory a binding points at (the Python code stores str(path),
    which is injective on the four directories).
  - Role bindings and the persisted config mirror the records used through
    AppConfig.  The AppConfig and utils.sound modules themselves are not under
    src/; each operation taken from them is modelled from the spec and marked
    as such in its doc comment.
  - Handlers that only notify the user and return are modelled as returning the
    unchanged state together with an outcome tag; handlers that would raise a
    Python exception return none.
-/

structure FName where
  stem : String
  ext : String
deriving DecidableEq, Repr

def FName.name (f : FName) : String := f.stem ++ f.ext

/-- The four application directories of the filesystem layout
(AppConfig paths: sounds, ambiences, user_sounds, user_ambiences). -/
inductive AppDir where
  | sounds
  | ambiences
  | user_sounds
  | user_ambiences
deriving DecidableEq, Repr

/-- The filesystem state: the listing of each of the four directories. -/
structure FS where
  sounds : List FName
  ambiences : List FName
  user_sounds : List FName
  user_ambiences : List FName
deriving DecidableEq, Repr

def FS.dir (fs : FS) : AppDir → List FName
  | .sounds => fs.sounds
  | .ambiences => fs.ambiences
  | .user_sounds => fs.user_sounds
  | .user_ambiences => fs.user_ambiences

def FS.setDir (fs : FS) : AppDir → List FName → FS
  | .sounds, l => { fs with sounds := l }
  | .ambiences, l => { fs with ambiences := l }
  | .user_sounds, l => { fs with user_sounds := l }
  | .user_ambiences, l => { fs with user_ambiences := l }

/-- The three semantic roles, the sound_type literal alarm | signal | ambient. -/
inductive Role where
  | alarm
  | signal
  | ambient
deriving DecidableEq, Repr

/-- The widget id string of the Select control of a role. -/
def Role.id : Role → String
  | .alarm => "alarm"
  | .signal => "signal"
  | .ambient => "ambient"

/-- The sound_type literal alarm | ambient passed to EditSound and
AddSoundTree: the edited pool is the sound pool unless it is ambient. -/
inductive EditKind where
  | alarm
  | ambient
deriving DecidableEq, Repr

/-- One persisted record per role: name of the bound file (with extension)
and the directory it lived in at binding time. -/
structure RoleBinding where
  name : String
  path : AppDir
deriving DecidableEq, Repr

/-- The persisted config: one RoleBinding per role, plus the fixed reserved
built-in name list returned by forbiden_sound_names. -/
structure Config where
  alarm : RoleBinding
  signal : RoleBinding
  ambient : RoleBinding
  forbidden : List String
deriving DecidableEq, Repr

/-- Modelled from the spec: AppConfig.get_used_sound (focusseeds/config.py and
focuskeeper/config.py are not under src/).  Spec 4.2 getRoleBinding: always
returns the record persisted for the role. -/
def Config.get_used_sound (c : Config) : Role → RoleBinding
  | .alarm => c.alarm
  | .signal => c.signal
  | .ambient => c.ambient

/-- Modelled from the spec: AppConfig.update_used_sound (config.py is not
under src/).  Spec 4.2 updateRoleBinding: unconditional overwrite of the
record of the role, no validation of file existence. -/
def Config.update_used_sound (c : Config) (t : Role) (name : String) (path : AppDir) : Config :=
  match t with
  | .alarm => { c with alarm := ⟨name, path⟩ }
  | .signal => { c with signal := ⟨name, path⟩ }
  | .ambient => { c with ambient := ⟨name, path⟩ }

/-- Modelled from the spec: AppConfig.forbiden_sound_names (config.py is not
under src/).  Spec 4.1 reservedNames: the fixed set of built-in default base
names that user assets may never adopt. -/
def Config.forbiden_sound_names (c : Config) : List String := c.forbidden

/-- The whole program state the embedded operations act on. -/
structure AppState where
  fs : FS
  config : Config
deriving DecidableEq, Repr

/-- The extension allow-list used by return_sounds_list
(focusseeds/sound_settings.py lines 17-20). -/
def allowedExts : List String := [".wav", ".mp3", ".ogg", ".flac", ".opus"]

/-- focusseeds/sound_settings.py lines 17-20, return_sounds_list: the names of
the audio files of the given paths, keeping only the allowed suffixes, in scan
order path by path.  The identically specified helper sounds_list of
focuskeeper/utils/sound.py (not under src/) is modelled by the same function. -/
def return_sounds_list (paths : List (List FName)) : List String :=
  paths.flatMap (fun p => (p.filter (fun s => decide (s.ext ∈ allowedExts))).map FName.name)

def dropToUnderscore : List Char → List Char
  | [] => []
  | c :: cs => if c = '_' then cs else dropToUnderscore cs

/-- focusseeds/sound_settings.py lines 23-25, remove_id_suffix: the part of the
string before the last underscore (string[:string.rindex(underscore)]). -/
def remove_id_suffix (s : String) : String :=
  ⟨(dropToUnderscore s.data.reverse).reverse⟩

/-- focusseeds/sound_settings.py lines 28-32, rename_file: rename the file
old inside dir to new.  Raises (none) when old is absent; following POSIX
rename semantics of pathlib, an existing file of the new name is replaced. -/
def rename_file (dir : List FName) (o n : FName) : Option (List FName) :=
  if o ∈ dir then
    some ((dir.filter (fun f => decide (f ≠ o) && decide (f ≠ n))) ++ [n])
  else
    none

/-- Python dict assignment d[k] = v: overwrite in place when the key exists,
append otherwise. -/
def dictSet (d : List (String × String)) (k v : String) : List (String × String) :=
  if k ∈ d.map Prod.fst then
    d.map (fun kv => if kv.1 = k then (k, v) else kv)
  else
    d ++ [(k, v)]

/-- A Python dict comprehension over a list of key-value pairs. -/
def dictOf (l : List (String × String)) : List (String × String) :=
  l.foldl (fun d kv => dictSet d kv.1 kv.2) []

/-- Modelled from the spec: is_imported_sound of focuskeeper/utils/sound.py
(not under src/).  Spec 4.1 isUserImported: true when a file of that exact
name already exists in the user directory of the category. -/
def is_imported_sound (fs : FS) (name : String) (k : EditKind) : Bool :=
  let d := if k = .ambient then fs.user_ambiences else fs.user_sounds
  decide (name ∈ d.map FName.name)

/-- The user directory receiving imports of a category
(add_sound_tree.py lines 68-71). -/
def userDirOf : EditKind → AppDir
  | .ambient => .user_ambiences
  | .alarm => .user_sounds

inductive ImportResult where
  | reserved
  | duplicate
  | imported (name : String)
deriving DecidableEq, Repr

/-- focuskeeper/modals/add_sound_tree.py lines 57-74, AddSoundTree.file_selected:
the handler importing the selected file.  soundify of utils/sound.py is not
under src/ and is modelled from the spec (base name of the source path), so the
soundified name is the stem and the copied name is stem plus suffix.  The
reserved check, then the duplicate check, precede the copy; a failed check
notifies and returns with no mutation. -/
def file_selected (st : AppState) (sound_type : EditKind) (src : FName) : AppState × ImportResult :=
  let soundified_name := src.stem ++ src.ext
  if src.stem ∈ st.config.forbiden_sound_names then
    (st, .reserved)
  else if is_imported_sound st.fs soundified_name sound_type then
    (st, .duplicate)
  else
    let path := userDirOf sound_type
    ({ st with fs := st.fs.setDir path (st.fs.dir path ++ [⟨src.stem, src.ext⟩]) },
     .imported soundified_name)

/-- focuskeeper/widgets/sound_settings.py lines 97-126 (and the identical
focusseeds handler, lines 79-108), SoundSettings.select_changed: on a Select
change of a role control, update the config record of that role.  BLANK is
modelled as none; set_alarm, set_signal, set_ambient are the currently shown
names of the widget.  The fallback directory is user_sounds in both branches,
also for the ambient control. -/
def select_changed (st : AppState) (set_alarm set_signal set_ambient : String)
    (ctrl : Role) : Option String → AppState
  | none => st
  | some v =>
    if ctrl.id ∈ [set_alarm, set_signal, set_ambient] then
      st
    else
      let file_path :=
        if ctrl = .ambient then
          (if v ∈ st.fs.ambiences.map FName.name then AppDir.ambiences else AppDir.user_sounds)
        else
          (if v ∈ st.fs.sounds.map FName.name then AppDir.sounds else AppDir.user_sounds)
      { st with config := st.config.update_used_sound ctrl v file_path }

inductive PlayResult where
  | blank
  | play (d : AppDir) (name : String)
  | notFound
deriving DecidableEq, Repr

/-- focuskeeper/widgets/sound_settings.py lines 145-165,
SoundSettings.listen_to_sound: play the selected preview name from the first
directory whose filtered listing holds it, checking user_sounds, then
user_ambiences, then sounds, then ambiences; raise FileNotFoundError when in
none of them. -/
def listen_to_sound (fs : FS) (value : Option String) : PlayResult :=
  match value with
  | none => .blank
  | some n =>
    if n ∈ return_sounds_list [fs.user_sounds] then .play .user_sounds n
    else if n ∈ return_sounds_list [fs.user_ambiences] then .play .user_ambiences n
    else if n ∈ return_sounds_list [fs.sounds] then .play .sounds n
    else if n ∈ return_sounds_list [fs.ambiences] then .play .ambiences n
    else .notFound

def strLe (s t : String) : Prop := s.data ≤ t.data

instance : DecidableRel strLe := fun s t => by
  unfold strLe; infer_instance

instance : IsTotal String strLe := ⟨fun a b => le_total a.data b.data⟩

instance : IsTrans String strLe := ⟨fun _ _ _ h h2 => le_trans h h2⟩

/-- focuskeeper/widgets/sound_settings.py line 85: the option list of the
test-sound Select, sorted(sound_list + ambiences_list), with the Python sorted
builtin modelled as a sort by the lexicographic order on the characters. -/
def test_sound_options (fs : FS) : List String :=
  List.insertionSort strLe
    (return_sounds_list [fs.sounds, fs.user_sounds] ++
     return_sounds_list [fs.ambiences, fs.user_ambiences])

/-- The widget state of the EditSound modal
(focusseeds/sound_settings.py lines 208-221). -/
structure EditSoundState where
  sound_type : EditKind
  path_to_sounds : AppDir
  sounds_names : List (String × String)
deriving DecidableEq, Repr

/-- focusseeds/sound_settings.py lines 208-221, EditSound.__init__: the
sounds_names dict maps the stem of each supported file of path_to_sounds to
its dotted extension. -/
def EditSound.init (t : EditKind) (p : AppDir) (fs : FS) : EditSoundState :=
  { sound_type := t,
    path_to_sounds := p,
    sounds_names :=
      dictOf (((fs.dir p).filter (fun s => decide (s.ext ∈ allowedExts))).map
        (fun f => (f.stem, f.ext))) }

/-- focusseeds/sound_settings.py lines 255-259, EditSound.check_sound_name:
the disabled flag of the rename button after an input change — true exactly
when the input value is a key of sounds_names. -/
def check_sound_name (es : EditSoundState) (value : String) : Bool :=
  decide (value ∈ es.sounds_names.map Prod.fst)

def renameIfBound (b : RoleBinding) (old_nm new_nm : String) : RoleBinding :=
  if b.name = old_nm then { b with name := new_nm } else b

/-- Modelled from the spec: AppConfig.change_sound_name_if_in_config
(focusseeds/config.py is not under src/).  Spec 4.3 rename step 4: for every
role whose category matches the edited pool (alarm and signal draw from the
sound pool, ambient from the ambient pool) call renameIfBound; spec 4.2
renameIfBound: when the bound name equals the old name, update it to the new
name, path unchanged.  The call site passes the new name; the old name of the
just-renamed file is supplied here explicitly, following the spec signature. -/
def change_sound_name_if_in_config (c : Config) (t : EditKind) (old_nm new_nm : String) : Config :=
  match t with
  | .alarm => { c with alarm := renameIfBound c.alarm old_nm new_nm,
                       signal := renameIfBound c.signal old_nm new_nm }
  | .ambient => { c with ambient := renameIfBound c.ambient old_nm new_nm }

/-- focusseeds/sound_settings.py lines 261-276, EditSound.change_sound_name:
the Button.Pressed handler.  The pressed button id gives the sound name via
remove_id_suffix; the stored extension is looked up (a missing key raises,
none); the file old_name is renamed to the input value plus extension; the
dict entry is moved to the new key; the config is reconciled.  No reserved
name check and no check against the built-in pool happen here. -/
def change_sound_name (st : AppState) (es : EditSoundState)
    (button_id input_value : String) : Option (AppState × EditSoundState) :=
  let sound_name := remove_id_suffix button_id
  match es.sounds_names.lookup sound_name with
  | none => none
  | some extension =>
    let old : FName := ⟨sound_name, extension⟩
    let nw : FName := ⟨input_value, extension⟩
    match rename_file (st.fs.dir es.path_to_sounds) old nw with
    | none => none
    | some dir2 =>
      let delOld := es.sounds_names.filter (fun kv => decide (kv.1 ≠ sound_name))
      let newNames := dictSet delOld input_value extension
      some
        ({ fs := st.fs.setDir es.path_to_sounds dir2,
           config := change_sound_name_if_in_config st.config es.sound_type old.name nw.name },
         { es with sounds_names := newNames })

/-- focusseeds/sound_settings.py lines 278-282, EditSound.remove_sound: the
dedicated remove handler; its body is empty, so it changes nothing. -/
def remove_sound (st : AppState) (es : EditSoundState) : AppState × EditSoundState :=
  (st, es)

/-- A Button.Pressed event inside EditSound is dispatched to both handlers
decorated with on(Button.Pressed): change_sound_name and then remove_sound. -/
def edit_sound_on_button_pressed (st : AppState) (es : EditSoundState)
    (button_id input_value : String) : Option (AppState × EditSoundState) :=
  (change_sound_name st es button_id input_value).map (fun p => remove_sound p.1 p.2)

/-- The roles drawing from the pool edited under an EditKind: alarm and signal
draw from the sound pool, ambient from the ambient pool. -/
def rolesOf : EditKind → List Role
  | .alarm => [.alarm, .signal]
  | .ambient => [.ambient]

/-- The preview resolution order as the spec states it (for comparison with
listen_to_sound): sound pool before ambient pool and, inside each pool, the
built-in directory before the user directory. -/
def spec_preview_resolve (fs : FS) (n : String) : PlayResult :=
  if n ∈ return_sounds_list [fs.sounds] then .play .sounds n
  else if n ∈ return_sounds_list [fs.user_sounds] then .play .user_sounds n
  else if n ∈ return_sounds_list [fs.ambiences] then .play .ambiences n
  else if n ∈ return_sounds_list [fs.user_ambiences] then .play .user_ambiences n
  else .notFound

/- Concrete states used by the scenario theorems below. -/

/-- A user ambience loop.wav; the reserved list holds forest; the ambient role
is bound to loop.wav in the user ambience directory (scenarios C and E). -/
def fsLoop : FS :=
  { sounds := [], ambiences := [], user_sounds := [], user_ambiences := [⟨"loop", ".wav"⟩] }

def cfgLoop : Config :=
  { alarm := ⟨"a.wav", .sounds⟩, signal := ⟨"s.wav", .sounds⟩,
    ambient := ⟨"loop.wav", .user_ambiences⟩, forbidden := ["forest"] }

def stLoop : AppState := { fs := fsLoop, config := cfgLoop }

def esLoop : EditSoundState := EditSound.init .ambient .user_ambiences fsLoop

/-- A built-in bell.wav next to a user loop.wav in the sound pool (for the
duplicate rename scenario). -/
def fsBell : FS :=
  { sounds := [⟨"bell", ".wav"⟩], ambiences := [], user_sounds := [⟨"loop", ".wav"⟩],
    user_ambiences := [] }

def stBell : AppState := { fs := fsBell, config := cfgLoop }

def esBell : EditSoundState := EditSound.init .alarm .user_sounds fsBell

/-- The same preview name in the built-in sound directory and in the user
ambience directory (for the preview resolution order). -/
def fsPrev : FS :=
  { sounds := [⟨"x", ".wav"⟩], ambiences := [], user_sounds := [],
    user_ambiences := [⟨"x", ".wav"⟩] }

/-- A user ambience rain.wav and an empty user sound directory (for the
select_changed fallback path). -/
def fsRain : FS :=
  { sounds := [], ambiences := [], user_sounds := [], user_ambiences := [⟨"rain", ".wav"⟩] }

def stRain : AppState := { fs := fsRain, config := cfgLoop }

/-- Two user sounds b.wav and c.wav (for the overwriting rename reached from a
remove button). -/
def fsBC : FS :=
  { sounds := [], ambiences := [], user_sounds := [⟨"b", ".wav"⟩, ⟨"c", ".wav"⟩],
    user_ambiences := [] }

def stBC : AppState := { fs := fsBC, config := cfgLoop }

def esBC : EditSoundState := EditSound.init .alarm .user_sounds fsBC

/-- Scenario D: one user sound bell.wav, the alarm role bound to bell.wav in
the built-in sound directory. -/
def fsBellD : FS :=
  { sounds := [], ambiences := [], user_sounds := [⟨"bell", ".wav"⟩], user_ambiences := [] }

def cfgBellD : Config :=
  { alarm := ⟨"bell.wav", .sounds⟩, signal := ⟨"s.wav", .sounds⟩,
    ambient := ⟨"amb.wav", .ambiences⟩, forbidden := [] }

def stBellD : AppState := { fs := fsBellD, config := cfgBellD }

def esBellD : EditSoundState := EditSound.init .alarm .user_sounds fsBellD

/-- A user sound dup.wav already imported, with an empty reserved list (for
the importing scenarios). -/
def fsDup : FS :=
  { sounds := [], ambiences := [], user_sounds := [⟨"dup", ".wav"⟩], user_ambiences := [] }

def stDup : AppState := { fs := fsDup, config := cfgBellD }

/- Helper lemmas. -/

theorem dropToUnderscore_append (l r : List Char) (h : ∀ c ∈ l, c ≠ '_') :
    dropToUnderscore (l ++ '_' :: r) = r := by
  induction l with
  | nil => simp [dropToUnderscore]
  | cons c cs ih =>
    simp only [List.cons_append, dropToUnderscore]
    rw [if_neg (h c (by simp))]
    exact ih (fun d hd => h d (by simp [hd]))

theorem remove_id_suffix_of_rename_bt (s : String) :
    remove_id_suffix (s ++ "_rename") = s := by
  unfold remove_id_suffix
  rw [String.data_append s "_rename", List.reverse_append]
  show String.mk ((dropToUnderscore
    (['e', 'm', 'a', 'n', 'e', 'r'] ++ '_' :: s.data.reverse)).reverse) = s
  rw [dropToUnderscore_append _ _ (by decide), List.reverse_reverse]

theorem remove_id_suffix_of_remove_bt (s : String) :
    remove_id_suffix (s ++ "_remove") = s := by
  unfold remove_id_suffix
  rw [String.data_append s "_remove", List.reverse_append]
  show String.mk ((dropToUnderscore
    (['e', 'v', 'o', 'm', 'e', 'r'] ++ '_' :: s.data.reverse)).reverse) = s
  rw [dropToUnderscore_append _ _ (by decide), List.reverse_reverse]

theorem FS.dir_setDir_self (fs : FS) (d : AppDir) (l : List FName) :
    (fs.setDir d l).dir d = l := by
  cases d <;> rfl

theorem FS.dir_setDir_of_ne (fs : FS) (d d2 : AppDir) (l : List FName) (h : d2 ≠ d) :
    (fs.setDir d l).dir d2 = fs.dir d2 := by
  cases d <;> cases d2 <;> first | rfl | exact absurd rfl h

theorem mem_map_fst_dictSet (d : List (String × String)) (k v a : String) :
    a ∈ (dictSet d k v).map Prod.fst ↔ a ∈ d.map Prod.fst ∨ a = k := by
  unfold dictSet
  by_cases hk : k ∈ d.map Prod.fst
  · rw [if_pos hk]
    simp only [List.map_map, List.mem_map, Function.comp] at hk ⊢
    constructor
    · rintro ⟨kv, hkv, hval⟩
      by_cases h1 : kv.1 = k
      · right
        rw [if_pos h1] at hval
        exact hval.symm
      · left
        rw [if_neg h1] at hval
        exact ⟨kv, hkv, hval⟩
    · rintro (⟨kv, hkv, hval⟩ | rfl)
      · refine ⟨kv, hkv, ?_⟩
        by_cases h1 : kv.1 = k
        · rw [if_pos h1]
          simp [← h1, hval]
        · rw [if_neg h1]
          exact hval
      · obtain ⟨kv0, hkv0, hval0⟩ := hk
        refine ⟨kv0, hkv0, ?_⟩
        rw [if_pos hval0]
  · rw [if_neg hk]
    simp [List.mem_append]

theorem mem_map_fst_foldl_dictSet (l : List (String × String)) (d : List (String × String))
    (a : String) :
    a ∈ (l.foldl (fun acc kv => dictSet acc kv.1 kv.2) d).map Prod.fst ↔
      a ∈ d.map Prod.fst ∨ a ∈ l.map Prod.fst := by
  induction l generalizing d with
  | nil => simp
  | cons kv ks ih =>
    simp only [List.foldl_cons, List.map_cons, List.mem_cons]
    rw [ih, mem_map_fst_dictSet]
    tauto

theorem mem_map_fst_dictOf (l : List (String × String)) (a : String) :
    a ∈ (dictOf l).map Prod.fst ↔ a ∈ l.map Prod.fst := by
  unfold dictOf
  rw [mem_map_fst_foldl_dictSet]
  simp

theorem csnic_forbidden (c : Config) (t : EditKind) (o n : String) (l : List String) :
    change_sound_name_if_in_config { c with forbidden := l } t o n =
      { change_sound_name_if_in_config c t o n with forbidden := l } := by
  cases t <;> rfl

/-- C1 (amended): every import whose base name is reserved fails with the
reserved outcome and performs no filesystem or config mutation; the rename
flow, however, never consults the reserved list (its result is independent of
it), so the import half of the protection holds and the rename half does not. -/
theorem reserved_guard_import_only :
    (∀ (st : AppState) (k : EditKind) (src : FName),
      src.stem ∈ st.config.forbiden_sound_names →
        file_selected st k src = (st, .reserved)) ∧
    (∀ (st : AppState) (es : EditSoundState) (b v : String) (l : List String),
      change_sound_name { st with config := { st.config with forbidden := l } } es b v =
        (change_sound_name st es b v).map
          (fun p => ({ p.1 with config := { p.1.config with forbidden := l } }, p.2))) := by
  constructor
  · intro st k src h
    unfold file_selected
    rw [if_pos h]
  · intro st es b v l
    unfold change_sound_name
    cases hl : es.sounds_names.lookup (remove_id_suffix b) with
    | none => simp [hl]
    | some ext =>
      simp only [hl]
      cases hr : rename_file (st.fs.dir es.path_to_sounds) ⟨remove_id_suffix b, ext⟩ ⟨v, ext⟩ with
      | none => simp [hr]
      | some dir2 => simp [hr, csnic_forbidden]

/-- C1 witness: importing forest.wav while forest is reserved fails with the
reserved outcome and leaves the state unchanged. -/
theorem reserved_guard_import_only_witness :
    file_selected stLoop .ambient ⟨"forest", ".wav"⟩ = (stLoop, .reserved) :=
  reserved_guard_import_only.1 stLoop .ambient ⟨"forest", ".wav"⟩ (by decide)

/-- C1 counterexample: forest is reserved, yet renaming the user ambience loop
to forest succeeds and mutates the filesystem and the visible listing — no
reserved failure occurs on the rename path. -/
theorem reserved_rename_mutates_cx :
    "forest" ∈ stLoop.config.forbiden_sound_names ∧
    (change_sound_name stLoop esLoop "loop_rename" "forest").isSome = true ∧
    (change_sound_name stLoop esLoop "loop_rename" "forest").map (fun p => p.1.fs) ≠
      some stLoop.fs ∧
    return_sounds_list [stLoop.fs.ambiences, stLoop.fs.user_ambiences] = ["loop.wav"] ∧
    (change_sound_name stLoop esLoop "loop_rename" "forest").map
        (fun p => return_sounds_list [p.1.fs.ambiences, p.1.fs.user_ambiences]) =
      some ["forest.wav"] := by
  decide

/-- C2: a press of the remove button of the user ambience loop changes neither
the filesystem nor the config: the dedicated remove handler returns the state
unchanged, loop.wav stays in the merged ambient listing, and the ambient role
stays bound to loop.wav instead of reverting to any fallback. -/
theorem remove_button_changes_nothing :
    remove_sound stLoop esLoop = (stLoop, esLoop) ∧
    edit_sound_on_button_pressed stLoop esLoop "loop_remove" "loop" = some (stLoop, esLoop) ∧
    "loop.wav" ∈ return_sounds_list [stLoop.fs.ambiences, stLoop.fs.user_ambiences] ∧
    stLoop.config.get_used_sound .ambient = ⟨"loop.wav", .user_ambiences⟩ := by
  decide

/-- C3: renaming a user asset updates, for every role of the matching category
whose binding names the old file, the bound name to the new base name with the
extension kept, leaving the bound path unchanged. -/
theorem rename_updates_matching_binding (st : AppState) (es : EditSoundState)
    (stem new_stem ext : String) (r : Role)
    (hlk : es.sounds_names.lookup stem = some ext)
    (hmem : (⟨stem, ext⟩ : FName) ∈ st.fs.dir es.path_to_sounds)
    (hrole : r ∈ rolesOf es.sound_type)
    (hbound : (st.config.get_used_sound r).name = stem ++ ext) :
    ∃ st2 es2, change_sound_name st es (stem ++ "_rename") new_stem = some (st2, es2) ∧
      st2.config.get_used_sound r =
        ⟨new_stem ++ ext, (st.config.get_used_sound r).path⟩ := by
  unfold change_sound_name
  simp only [remove_id_suffix_of_rename_bt, hlk]
  unfold rename_file
  rw [if_pos hmem]
  refine ⟨_, _, rfl, ?_⟩
  cases ht : es.sound_type <;> rw [ht] at hrole <;> fin_cases hrole <;>
    simp_all [change_sound_name_if_in_config, renameIfBound, Config.get_used_sound, FName.name]

/-- C3 witness (scenario D): the alarm role bound to bell.wav follows the
rename of bell to gong, path unchanged. -/
theorem rename_updates_matching_binding_witness :
    ∃ st2 es2, change_sound_name stBellD esBellD ("bell" ++ "_rename") "gong" = some (st2, es2) ∧
      st2.config.get_used_sound .alarm =
        ⟨"gong" ++ ".wav", (stBellD.config.get_used_sound .alarm).path⟩ :=
  rename_updates_matching_binding stBellD esBellD "bell" "gong" ".wav" .alarm
    (by decide) (by decide) (by decide) (by decide)

/-- C4 (amended): the preview handler checks the user sound directory, then
the user ambience directory, then the built-in sound directory, then the
built-in ambience directory, playing from the first filtered listing holding
the name, and fails with not-found exactly when the name is in none of the
four listings. -/
theorem preview_resolution_order (fs : FS) (n : String) :
    (listen_to_sound fs (some n) = .notFound ↔
      (n ∉ return_sounds_list [fs.user_sounds] ∧ n ∉ return_sounds_list [fs.user_ambiences] ∧
       n ∉ return_sounds_list [fs.sounds] ∧ n ∉ return_sounds_list [fs.ambiences])) ∧
    (n ∈ return_sounds_list [fs.user_sounds] →
      listen_to_sound fs (some n) = .play .user_sounds n) ∧
    (n ∉ return_sounds_list [fs.user_sounds] → n ∈ return_sounds_list [fs.user_ambiences] →
      listen_to_sound fs (some n) = .play .user_ambiences n) ∧
    (n ∉ return_sounds_list [fs.user_sounds] → n ∉ return_sounds_list [fs.user_ambiences] →
      n ∈ return_sounds_list [fs.sounds] →
      listen_to_sound fs (some n) = .play .sounds n) ∧
    (n ∉ return_sounds_list [fs.user_sounds] → n ∉ return_sounds_list [fs.user_ambiences] →
      n ∉ return_sounds_list [fs.sounds] → n ∈ return_sounds_list [fs.ambiences] →
      listen_to_sound fs (some n) = .play .ambiences n) := by
  simp only [listen_to_sound]
  split_ifs with h1 h2 h3 h4 <;> simp_all

/-- C4 witness: with x.wav only in the user ambience listing among the first
two checks, the preview plays it from the user ambience directory. -/
theorem preview_resolution_order_witness :
    listen_to_sound fsPrev (some "x.wav") = .play .user_ambiences "x.wav" :=
  (preview_resolution_order fsPrev "x.wav").2.2.1 (by decide) (by decide)

/-- C4 counterexample: x.wav sits in the built-in sound directory, so the
stated order (sound pool first, built-in before user) would play it from
there, but the handler plays it from the user ambience directory. -/
theorem preview_order_cx :
    "x.wav" ∈ return_sounds_list [fsPrev.sounds] ∧
    spec_preview_resolve fsPrev "x.wav" = .play .sounds "x.wav" ∧
    listen_to_sound fsPrev (some "x.wav") = .play .user_ambiences "x.wav" ∧
    listen_to_sound fsPrev (some "x.wav") ≠ spec_preview_resolve fsPrev "x.wav" := by
  decide

/-- C5 (amended): the rename button is disabled exactly when the new name is
the base name of some supported file of the user directory of the modal —
including the asset being renamed itself — while names only in the built-in
pool are not checked, so a rename can produce two visible assets sharing a
base name across the built-in and user listings. -/
theorem user_pool_duplicate_check :
    (∀ (fs : FS) (k : EditKind) (p : AppDir) (v : String),
      check_sound_name (EditSound.init k p fs) v = true ↔
        ∃ f, f ∈ fs.dir p ∧ f.ext ∈ allowedExts ∧ f.stem = v) ∧
    (∀ (fs : FS) (k : EditKind) (p : AppDir) (f : FName),
      f ∈ fs.dir p → f.ext ∈ allowedExts →
        check_sound_name (EditSound.init k p fs) f.stem = true) ∧
    (change_sound_name stBell esBell "loop_rename" "bell").map
        (fun p => ((p.1.fs.sounds ++ p.1.fs.user_sounds).map FName.stem).count "bell") =
      some 2 := by
  have hiff : ∀ (fs : FS) (k : EditKind) (p : AppDir) (v : String),
      check_sound_name (EditSound.init k p fs) v = true ↔
        ∃ f, f ∈ fs.dir p ∧ f.ext ∈ allowedExts ∧ f.stem = v := by
    intro fs k p v
    unfold check_sound_name EditSound.init
    rw [decide_eq_true_eq, mem_map_fst_dictOf]
    simp only [List.map_map, List.mem_map, Function.comp, List.mem_filter, decide_eq_true_eq]
    constructor
    · rintro ⟨f, ⟨hf, he⟩, hs⟩
      exact ⟨f, hf, he, hs⟩
    · rintro ⟨f, hf, he, hs⟩
      exact ⟨f, ⟨hf, he⟩, hs⟩
  refine ⟨hiff, fun fs k p f hf he => (hiff fs k p f.stem).mpr ⟨f, hf, he, rfl⟩, by decide⟩

/-- C5 witness: loop, the asset being renamed, blocks its own name, and bell,
present only in the built-in pool, is not blocked. -/
theorem user_pool_duplicate_check_witness :
    check_sound_name (EditSound.init .alarm .user_sounds fsBell) "loop" = true :=
  user_pool_duplicate_check.2.1 fsBell .alarm .user_sounds ⟨"loop", ".wav"⟩
    (by decide) (by decide)

/-- C5 counterexample: bell.wav is visible in the merged sound listing, yet
the rename of loop to bell is not disabled and succeeds, leaving two visible
assets with base name bell — the duplicate check misses built-in names. -/
theorem duplicate_rename_cx :
    "bell.wav" ∈ return_sounds_list [stBell.fs.sounds, stBell.fs.user_sounds] ∧
    check_sound_name esBell "bell" = false ∧
    (change_sound_name stBell esBell "loop_rename" "bell").map
        (fun p => (p.1.fs.sounds ++ p.1.fs.user_sounds).map FName.stem) =
      some ["bell", "bell"] ∧
    ¬ (["bell", "bell"] : List String).Nodup := by
  decide

/-- C6: an import whose file name is already in the user directory of the
category (and whose base name is not reserved, the reserved check coming
first) fails with the duplicate outcome; and any import that does not succeed
leaves the whole state unchanged — both validations precede the copy. -/
theorem import_duplicate_precedes_copy :
    (∀ (st : AppState) (k : EditKind) (src : FName),
      src.stem ∉ st.config.forbiden_sound_names →
        is_imported_sound st.fs src.name k = true →
        file_selected st k src = (st, .duplicate)) ∧
    (∀ (st : AppState) (k : EditKind) (src : FName),
      (file_selected st k src).1 = st ∨ (file_selected st k src).2 = .imported src.name) := by
  constructor
  · intro st k src h1 h2
    have h2a : is_imported_sound st.fs (src.stem ++ src.ext) k = true := h2
    unfold file_selected
    rw [if_neg h1, if_pos h2a]
  · intro st k src
    unfold file_selected
    by_cases hf : src.stem ∈ st.config.forbiden_sound_names
    · rw [if_pos hf]
      left
      rfl
    · rw [if_neg hf]
      by_cases hi : is_imported_sound st.fs (src.stem ++ src.ext) k = true
      · rw [if_pos hi]
        left
        rfl
      · rw [if_neg hi]
        right
        rfl

/-- C6 witness: importing dup.wav again fails with the duplicate outcome and
changes nothing. -/
theorem import_duplicate_precedes_copy_witness :
    file_selected stDup .alarm ⟨"dup", ".wav"⟩ = (stDup, .duplicate) :=
  import_duplicate_precedes_copy.1 stDup .alarm ⟨"dup", ".wav"⟩ (by decide) (by decide)

/-- C7: a successful import appends the source file, name unchanged, to the
user directory of the category (user ambiences for ambient, user sounds
otherwise); no import ever touches the config, and no directory other than
the target user directory changes. -/
theorem import_copies_into_user_dir :
    (∀ (st : AppState) (k : EditKind) (src : FName),
      src.stem ∉ st.config.forbiden_sound_names →
        is_imported_sound st.fs src.name k = false →
        file_selected st k src =
          ({ st with fs := st.fs.setDir (userDirOf k) (st.fs.dir (userDirOf k) ++ [src]) },
           .imported src.name)) ∧
    (∀ (st : AppState) (k : EditKind) (src : FName),
      (file_selected st k src).1.config = st.config) ∧
    (∀ (st : AppState) (k : EditKind) (src : FName) (d : AppDir),
      d ≠ userDirOf k → (file_selected st k src).1.fs.dir d = st.fs.dir d) := by
  refine ⟨?_, ?_, ?_⟩
  · intro st k src h1 h2
    have h2a : is_imported_sound st.fs (src.stem ++ src.ext) k = false := h2
    unfold file_selected
    rw [if_neg h1,
      if_neg (by simp [h2a] : ¬ is_imported_sound st.fs (src.stem ++ src.ext) k = true)]
    rfl
  · intro st k src
    unfold file_selected
    by_cases hf : src.stem ∈ st.config.forbiden_sound_names
    · rw [if_pos hf]
    · rw [if_neg hf]
      by_cases hi : is_imported_sound st.fs (src.stem ++ src.ext) k = true
      · rw [if_pos hi]
      · rw [if_neg hi]
  · intro st k src d hd
    unfold file_selected
    by_cases hf : src.stem ∈ st.config.forbiden_sound_names
    · rw [if_pos hf]
    · rw [if_neg hf]
      by_cases hi : is_imported_sound st.fs (src.stem ++ src.ext) k = true
      · rw [if_pos hi]
      · rw [if_neg hi]
        exact FS.dir_setDir_of_ne _ _ _ _ hd

/-- C7 witness: importing new.wav as an ambient appends it to the user
ambience directory, name unchanged, with the config untouched. -/
theorem import_copies_into_user_dir_witness :
    file_selected stDup .ambient ⟨"new", ".wav"⟩ =
      ({ stDup with
          fs := stDup.fs.setDir (userDirOf .ambient)
            (stDup.fs.dir (userDirOf .ambient) ++ [⟨"new", ".wav"⟩]) },
       .imported "new.wav") :=
  import_copies_into_user_dir.1 stDup .ambient ⟨"new", ".wav"⟩ (by decide) (by decide)

/-- C8 (amended): the listing merges the built-in and the user directory in
that order, filtered to the allowed extensions, as full file names with their
extension and in scan order without sorting; only the preview selector sorts
its merged option list.  With an empty user directory and the built-in pool
bell.wav, chime.wav the listing is the pair of full names. -/
theorem listing_concat_and_preview_sorted :
    (∀ b u : List FName,
      return_sounds_list [b, u] = return_sounds_list [b] ++ return_sounds_list [u]) ∧
    (∀ fs : FS, List.Sorted strLe (test_sound_options fs)) ∧
    return_sounds_list [[⟨"bell", ".wav"⟩, ⟨"chime", ".wav"⟩], []] =
      ["bell.wav", "chime.wav"] := by
  refine ⟨fun b u => by simp [return_sounds_list],
    fun fs => List.sorted_insertionSort _ _, by decide⟩

/-- C8 counterexample: the listing returns full file names, not base names, so
scenario A yields bell.wav, chime.wav rather than bell, chime; and the listing
keeps scan order, so a reversed directory stays unsorted. -/
theorem listing_unsorted_full_names_cx :
    return_sounds_list [[⟨"bell", ".wav"⟩, ⟨"chime", ".wav"⟩], []] =
      ["bell.wav", "chime.wav"] ∧
    (["bell.wav", "chime.wav"] : List String) ≠ ["bell", "chime"] ∧
    return_sounds_list [[⟨"chime", ".wav"⟩, ⟨"bell", ".wav"⟩], []] =
      ["chime.wav", "bell.wav"] ∧
    ¬ List.Sorted strLe ["chime.wav", "bell.wav"] := by
  decide

/-- C9: whenever the selected value is not a name of the built-in directory of
the control (the raw listing, ambiences for ambient, sounds otherwise), the
handler records the user sound directory as the binding path — also for the
ambient role, whose user files live in the user ambience directory — so the
stored pair can point at a directory that does not hold the file, as the
concrete rain.wav selection shows. -/
theorem select_fallback_user_sounds :
    (∀ (st : AppState) (sa ss sam : String) (r : Role) (v : String),
      r.id ∉ [sa, ss, sam] →
      v ∉ (if r = Role.ambient then st.fs.ambiences else st.fs.sounds).map FName.name →
      (select_changed st sa ss sam r (some v)).config.get_used_sound r =
        ⟨v, .user_sounds⟩) ∧
    ((select_changed stRain "a" "s" "m" .ambient (some "rain.wav")).config.get_used_sound
        .ambient = ⟨"rain.wav", .user_sounds⟩ ∧
      "rain.wav" ∈ stRain.fs.user_ambiences.map FName.name ∧
      "rain.wav" ∉
        ((select_changed stRain "a" "s" "m" .ambient (some "rain.wav")).fs.dir
          .user_sounds).map FName.name) := by
  constructor
  · intro st sa ss sam r v h1 h2
    simp only [select_changed]
    rw [if_neg h1]
    cases r <;> simp_all [Config.update_used_sound, Config.get_used_sound]
  · decide

/-- C9 witness: selecting drop.wav for the ambient role while it is not a
built-in ambience records the user sound directory as its path. -/
theorem select_fallback_user_sounds_witness :
    (select_changed stRain "x" "y" "z" .ambient (some "drop.wav")).config.get_used_sound
      .ambient = ⟨"drop.wav", .user_sounds⟩ :=
  select_fallback_user_sounds.1 stRain "x" "y" "z" .ambient "drop.wav"
    (by decide) (by decide)

/-- C10 (amended): the dedicated remove handler returns the state unchanged;
a press of a remove button reaches the rename handler under the name before
the final underscore of the button id, and the combined dispatch of a button
press equals the rename handler alone; no press reaches a delete operation,
and the file count is preserved whenever the input value does not name an
existing file — but a rename whose target file name already exists replaces
that file, so such a press can still make a file disappear. -/
theorem remove_routes_to_rename :
    (∀ (st : AppState) (es : EditSoundState), remove_sound st es = (st, es)) ∧
    (∀ s : String, remove_id_suffix (s ++ "_remove") = s) ∧
    (∀ (st : AppState) (es : EditSoundState) (b v : String),
      edit_sound_on_button_pressed st es b v = change_sound_name st es b v) ∧
    (∀ (st : AppState) (es : EditSoundState) (stem new_stem ext : String),
      (st.fs.dir es.path_to_sounds).Nodup →
      es.sounds_names.lookup stem = some ext →
      (⟨stem, ext⟩ : FName) ∈ st.fs.dir es.path_to_sounds →
      (⟨new_stem, ext⟩ : FName) ∉ st.fs.dir es.path_to_sounds →
      ∃ st2 es2,
        edit_sound_on_button_pressed st es (stem ++ "_remove") new_stem = some (st2, es2) ∧
        (st2.fs.dir es.path_to_sounds).length = (st.fs.dir es.path_to_sounds).length) := by
  refine ⟨fun st es => rfl, remove_id_suffix_of_remove_bt, ?_, ?_⟩
  · intro st es b v
    unfold edit_sound_on_button_pressed remove_sound
    cases change_sound_name st es b v <;> rfl
  · intro st es stem new_stem ext hnd hlk hmem hnew
    unfold edit_sound_on_button_pressed change_sound_name
    simp only [remove_id_suffix_of_remove_bt, hlk]
    unfold rename_file
    rw [if_pos hmem]
    simp only [Option.map_some]
    refine ⟨_, _, rfl, ?_⟩
    rw [FS.dir_setDir_self]
    have hfc : (st.fs.dir es.path_to_sounds).filter
        (fun f => decide (f ≠ (⟨stem, ext⟩ : FName)) &&
          decide (f ≠ (⟨new_stem, ext⟩ : FName))) =
        (st.fs.dir es.path_to_sounds).filter
          (fun f => decide (f ≠ (⟨stem, ext⟩ : FName))) := by
      apply List.filter_congr
      intro f hf
      have hne : f ≠ (⟨new_stem, ext⟩ : FName) := fun hEq => hnew (hEq ▸ hf)
      simp [hne]
    rw [List.length_append, hfc]
    have herase : (st.fs.dir es.path_to_sounds).filter
        (fun f => decide (f ≠ (⟨stem, ext⟩ : FName))) =
        (st.fs.dir es.path_to_sounds).erase ⟨stem, ext⟩ := by
      rw [List.Nodup.erase_eq_filter hnd]
      apply List.filter_congr
      intro f hf
      simp only [bne, decide_not]
      rfl
    rw [herase, List.length_erase_of_mem hmem]
    have hpos : 0 < (st.fs.dir es.path_to_sounds).length :=
      List.length_pos.mpr (List.ne_nil_of_mem hmem)
    simp only [List.length_singleton]
    omega

/-- C10 witness: pressing the remove button of b with the fresh input d keeps
the number of user sound files unchanged — the press renames, it deletes
nothing. -/
theorem remove_routes_to_rename_witness :
    ∃ st2 es2,
      edit_sound_on_button_pressed stBC esBC ("b" ++ "_remove") "d" = some (st2, es2) ∧
      (st2.fs.dir esBC.path_to_sounds).length = (stBC.fs.dir esBC.path_to_sounds).length :=
  remove_routes_to_rename.2.2.2 stBC esBC "b" "d" ".wav"
    (by decide) (by decide) (by decide) (by decide)

/-- C10 counterexample: pressing the remove button of b with input c renames
b.wav onto the existing c.wav, replacing it — two files become one, so an
operation reachable from the modal does make a file disappear. -/
theorem remove_press_overwrites_cx :
    stBC.fs.user_sounds.length = 2 ∧
    (edit_sound_on_button_pressed stBC esBC "b_remove" "c").map
        (fun p => p.1.fs.user_sounds) = some [⟨"c", ".wav"⟩] ∧
    (edit_sound_on_button_pressed stBC esBC "b_remove" "c").map
        (fun p => p.1.fs.user_sounds.length) = some 1 := by
  decide
